import Mathlib

/-!
Verification of the monkmode BTC/ETH pair-trading bot.

The development shallowly embeds the strategy state machine of
src/strategy/pair_trader.py, the data model of src/api/base.py and
src/config.py, the polling rate-limit handling of src/api/coingecko.py and
the reconnect backoff of src/api/binance.py.  Python floats are modelled as
rationals; datetime values as rational timestamps in seconds; a raised
exception (ZeroDivisionError in Position.estimate_pnl) is modelled as none.
-/

namespace MonkMode

/-- Type of trading signal (SignalType in src/api/base.py). -/
inductive SignalType where
  | strategy1
  | strategy2
  | close
deriving DecidableEq

/-- Price information for an asset (PriceData in src/api/base.py); only the
fields read by the strategy logic are modelled. -/
structure PriceData where
  symbol : String
  price : ℚ
  change_24h_pct : ℚ
deriving DecidableEq

/-- A trading signal based on the BTC/ETH spread (SpreadSignal in
src/api/base.py). -/
structure SpreadSignal where
  btc : PriceData
  eth : PriceData
  spread_pct : ℚ
  signal_type : Option SignalType := none
deriving DecidableEq

/-- Dataclass post-construction hook of SpreadSignal (src/api/base.py lines
49 to 55): when no explicit signal type was given, the classification is
derived by comparing the spread against the hard-coded literal 2.0. -/
def SpreadSignal.post_init (s : SpreadSignal) : SpreadSignal :=
  if s.signal_type = none then
    if s.spread_pct ≥ 2 then { s with signal_type := some SignalType.strategy1 }
    else if s.spread_pct ≤ -2 then { s with signal_type := some SignalType.strategy2 }
    else s
  else s

/-- An open position tracked for close-signal detection (Position in
src/api/base.py). -/
structure Position where
  signal_type : SignalType
  entry_spread : ℚ
  entry_btc_price : ℚ
  entry_eth_price : ℚ
  entry_time : ℚ
  position_size_usd : ℚ
deriving DecidableEq

/-- Position.estimate_pnl (src/api/base.py lines 90 to 114).  The Python code
divides by the entry prices with no zero guard, so a zero entry price raises
ZeroDivisionError; that failure is modelled as none. -/
def Position.estimate_pnl (p : Position) (current_btc current_eth : ℚ) : Option ℚ :=
  if p.entry_btc_price = 0 ∨ p.entry_eth_price = 0 then none
  else
    let btc_pct_change := (current_btc - p.entry_btc_price) / p.entry_btc_price
    let eth_pct_change := (current_eth - p.entry_eth_price) / p.entry_eth_price
    if p.signal_type = SignalType.strategy1 then
      let btc_pnl := btc_pct_change * p.position_size_usd
      let eth_pnl := -eth_pct_change * p.position_size_usd
      some (btc_pnl + eth_pnl)
    else
      let btc_pnl := -btc_pct_change * p.position_size_usd
      let eth_pnl := eth_pct_change * p.position_size_usd
      some (btc_pnl + eth_pnl)

/-- Strategy parameters (StrategyConfig in src/config.py), with the source
defaults. -/
structure StrategyConfig where
  debug_mode : Bool := false
  spread_threshold : ℚ := 2
  spread_max : ℚ := 8
  spread_close_threshold : ℚ := 1
  position_size_usd : ℚ := 1000
  take_profit_usd : ℚ := 25
  cooldown_sec : ℚ := 300
  polling_interval_sec : ℚ := 30
deriving DecidableEq

/-- Mutable per-run state of MonkPairTrader (src/strategy/pair_trader.py
lines 76 to 80): the per-direction cooldown ledger, the optional open
position, and the last seen spread. -/
structure TraderState where
  last_signal_time : SignalType → Option ℚ
  current_position : Option Position
  last_spread : Option ℚ

/-- Fresh trader state: empty cooldown ledger, no position, no spread seen. -/
def TraderState.init : TraderState :=
  { last_signal_time := fun _ => none, current_position := none, last_spread := none }

/-- An alert handed to the notifiers (MonkPairTrader.send_alert call sites):
an entry alert carrying the classified signal, or a close alert carrying the
signal, the closed position and the estimated PnL. -/
inductive Alert where
  | signal (sig : SpreadSignal)
  | close (sig : SpreadSignal) (pos : Position) (estimated_pnl : ℚ)
deriving DecidableEq

/-- Whether an alert is an entry alert. -/
def Alert.isEntry : Alert → Bool
  | Alert.signal _ => true
  | Alert.close _ _ _ => false

/-- Whether an alert is an entry alert for the given direction. -/
def Alert.isEntryFor : Alert → SignalType → Bool
  | Alert.signal sig, d => decide (sig.signal_type = some d)
  | Alert.close _ _ _, _ => false

/-- MonkPairTrader.check_entry_signal (src/strategy/pair_trader.py lines 116
to 172).  Returns the updated state and the alerts sent.  The observation
time now stands for the datetime.utcnow() calls of the body. -/
def check_entry_signal (cfg : StrategyConfig) (st : TraderState)
    (sig : SpreadSignal) (now : ℚ) : TraderState × List Alert :=
  let threshold := cfg.spread_threshold
  let max_spread := cfg.spread_max
  if |sig.spread_pct| < threshold then (st, [])
  else if |sig.spread_pct| > max_spread then (st, [])
  else
    match (if sig.spread_pct ≥ threshold then some SignalType.strategy1
           else if sig.spread_pct ≤ -threshold then some SignalType.strategy2
           else none) with
    | none => (st, [])
    | some signal_type =>
      let sig1 := { sig with signal_type := some signal_type }
      let cooldown := cfg.cooldown_sec
      let suppressed : Bool :=
        match st.last_signal_time signal_type with
        | some last_time => decide (now - last_time < cooldown)
        | none => false
      if suppressed then (st, [])
      else
        let pos : Position :=
          { signal_type := signal_type
            entry_spread := sig.spread_pct
            entry_btc_price := sig.btc.price
            entry_eth_price := sig.eth.price
            entry_time := now
            position_size_usd := cfg.position_size_usd }
        ({ st with
            current_position := some pos
            last_signal_time :=
              fun d => if d = signal_type then some now else st.last_signal_time d },
         [Alert.signal sig1])

/-- MonkPairTrader.check_close_signal (src/strategy/pair_trader.py lines 174
to 209).  The unconditional estimate_pnl call may raise on a zero entry
price, modelled as none. -/
def check_close_signal (cfg : StrategyConfig) (st : TraderState)
    (sig : SpreadSignal) : Option (TraderState × List Alert) :=
  match st.current_position with
  | none => some (st, [])
  | some position =>
    let close_threshold := cfg.spread_close_threshold
    let take_profit := cfg.take_profit_usd
    match position.estimate_pnl sig.btc.price sig.eth.price with
    | none => none
    | some estimated_pnl =>
      if |sig.spread_pct| ≤ close_threshold ∧ estimated_pnl ≥ take_profit then
        let sig1 := { sig with signal_type := some SignalType.close }
        some ({ st with current_position := none },
              [Alert.close sig1 position estimated_pnl])
      else some (st, [])

/-- MonkPairTrader.on_price_update (src/strategy/pair_trader.py lines 104 to
114): record the last spread; while a position is open only the close logic
runs, otherwise only the entry logic runs. -/
def on_price_update (cfg : StrategyConfig) (st : TraderState)
    (sig : SpreadSignal) (now : ℚ) : Option (TraderState × List Alert) :=
  let st1 := { st with last_spread := some sig.spread_pct }
  match st1.current_position with
  | some _ => check_close_signal cfg st1 sig
  | none => some (check_entry_signal cfg st1 sig now)

/-- Sequential processing of a list of timestamped observations through
on_price_update, accumulating the alerts sent. -/
def process_all (cfg : StrategyConfig) :
    TraderState → List (SpreadSignal × ℚ) → Option (TraderState × List Alert)
  | st, [] => some (st, [])
  | st, (sig, now) :: rest =>
    match on_price_update cfg st sig now with
    | none => none
    | some (st1, evs) =>
      match process_all cfg st1 rest with
      | none => none
      | some (st2, evs2) => some (st2, evs ++ evs2)

/-- Direction implied by a spread (spec 4.3): at or above the positive
threshold gives strategy1, otherwise strategy2. -/
def impliedDirection (threshold spread : ℚ) : SignalType :=
  if threshold ≤ spread then SignalType.strategy1 else SignalType.strategy2

/-- The cooldown for a direction has elapsed, or that direction has never
fired (spec 4.3). -/
def cooldownElapsed (st : TraderState) (d : SignalType) (now cooldown : ℚ) : Prop :=
  match st.last_signal_time d with
  | none => True
  | some t => now - t ≥ cooldown

/-- Entry precondition exactly as the spec states it: spread magnitude at
least the entry threshold, at most the max ceiling, and cooldown elapsed for
the implied direction. -/
def entryFires (cfg : StrategyConfig) (st : TraderState) (sig : SpreadSignal)
    (now : ℚ) : Prop :=
  |sig.spread_pct| ≥ cfg.spread_threshold ∧ |sig.spread_pct| ≤ cfg.spread_max ∧
    cooldownElapsed st (impliedDirection cfg.spread_threshold sig.spread_pct)
      now cfg.cooldown_sec

/-- Rate-limit bookkeeping of CoinGeckoAPI (src/api/coingecko.py lines 34 to
38) together with the running flag of the poll loop. -/
structure CoinGeckoState where
  rate_limited : Bool
  rate_limit_until : Option ℚ
  running : Bool
deriving DecidableEq

/-- Outcome of one HTTP fetch against the simple-price endpoint, as
distinguished by CoinGeckoAPI.get_current_prices: a 429 rate-limit response,
another non-200 status, a 200 response with both legs present, or a 200
response missing a leg. -/
inductive FetchResponse where
  | rateLimited
  | httpError
  | ok (sig : SpreadSignal)
  | okIncomplete
deriving DecidableEq

/-- CoinGeckoAPI.get_current_prices (src/api/coingecko.py lines 89 to 219),
restricted to its rate-limit state effect and its returned observation: a 429
sets the rate-limited flag and a cooldown of exactly 60 seconds from now and
returns none; any other failure returns none; a complete 200 response returns
the observation. -/
def get_current_prices (st : CoinGeckoState) (now : ℚ) (resp : FetchResponse) :
    CoinGeckoState × Option SpreadSignal :=
  match resp with
  | FetchResponse.rateLimited =>
    ({ st with rate_limited := true, rate_limit_until := some (now + 60) }, none)
  | FetchResponse.httpError => (st, none)
  | FetchResponse.ok sig => (st, some sig)
  | FetchResponse.okIncomplete => (st, none)

/-- What an iteration of the poll loop did: slept out part of a rate-limit
cooldown without fetching, or performed a fetch whose returned observation
(if any) was handed to the callback. -/
inductive PollStep where
  | sleptCooldown
  | fetched (emitted : Option SpreadSignal)
deriving DecidableEq

/-- The fetch-and-emit tail of a poll-loop iteration (src/api/coingecko.py
lines 80 to 82): fetch, and invoke the callback exactly when an observation
came back. -/
def poll_fetch (st : CoinGeckoState) (now : ℚ) (resp : FetchResponse) :
    CoinGeckoState × PollStep :=
  let fetched := get_current_prices st now resp
  (fetched.1, PollStep.fetched fetched.2)

/-- One iteration of the body of CoinGeckoAPI.start_polling (src/api/
coingecko.py lines 62 to 87): while rate-limited with time remaining, sleep
and skip the fetch; once the window has lapsed, clear the rate-limited state
and fall through to a normal fetch in the same iteration. -/
def poll_iteration (st : CoinGeckoState) (now : ℚ) (resp : FetchResponse) :
    CoinGeckoState × PollStep :=
  match st.rate_limited, st.rate_limit_until with
  | true, some u =>
    if u - now > 0 then (st, PollStep.sleptCooldown)
    else poll_fetch { st with rate_limited := false, rate_limit_until := none } now resp
  | true, none => poll_fetch st now resp
  | false, _ => poll_fetch st now resp

/-- The two assignments to the reconnect delay in BinanceAPI.start_stream:
a successful (re)connect (src/api/binance.py line 69) and the retry wait at
the end of a failed iteration (lines 94 to 97). -/
inductive StreamEvent where
  | connected
  | retrySleep
deriving DecidableEq

/-- Base reconnect delay in seconds (BinanceAPI, src/api/binance.py line 36). -/
def reconnect_delay_base : ℕ := 5

/-- Maximum reconnect delay in seconds (src/api/binance.py line 37). -/
def max_reconnect_delay : ℕ := 60

/-- The carried reconnect delay as a state machine (src/api/binance.py lines
69 and 97): reset to the base on every successful connect, doubled and capped
at the maximum on every retry wait. -/
def backoff_step (d : ℕ) : StreamEvent → ℕ
  | StreamEvent.connected => reconnect_delay_base
  | StreamEvent.retrySleep => min (d * 2) max_reconnect_delay

/-- Delay value carried after a trace of stream events, starting from the
base (src/api/binance.py line 50). -/
def backoff_trace (evs : List StreamEvent) : ℕ :=
  evs.foldl backoff_step reconnect_delay_base

/-- Loop guard of both the stream retry loop (src/api/binance.py line 58)
and the poll loop (src/api/coingecko.py line 62): the loop continues exactly
while the running flag holds. -/
def stream_loop_continues (running : Bool) : Bool := running

/-- The Position record built at entry time (src/strategy/pair_trader.py lines
159 to 166), parameterised by the fired direction. -/
def entryPosition (cfg : StrategyConfig) (sig : SpreadSignal) (now : ℚ)
    (d : SignalType) : Position :=
  { signal_type := d, entry_spread := sig.spread_pct, entry_btc_price := sig.btc.price,
    entry_eth_price := sig.eth.price, entry_time := now,
    position_size_usd := cfg.position_size_usd }

/-- A signal with its signal type overwritten, as done just before an alert is
sent (src/strategy/pair_trader.py lines 141 and 199). -/
def withSignalType (sig : SpreadSignal) (d : SignalType) : SpreadSignal :=
  { sig with signal_type := some d }

/-- Concrete fixture: a strategy1 position entered at prices 100/100 with the
default notional size. -/
def posW : Position :=
  { signal_type := SignalType.strategy1, entry_spread := 5/2, entry_btc_price := 100,
    entry_eth_price := 100, entry_time := 0, position_size_usd := 1000 }

/-- Concrete fixture: trader state holding posW with a strategy1 cooldown
recorded at time 0. -/
def stOpenW : TraderState :=
  { last_signal_time := fun d => if d = SignalType.strategy1 then some 0 else none,
    current_position := some posW, last_spread := some (5/2) }

/-- Concrete fixture: an observation with normalized spread 0.5 and BTC up 10
percent from entry. -/
def sigCloseW : SpreadSignal :=
  { btc := { symbol := "BTC", price := 110, change_24h_pct := 0 },
    eth := { symbol := "ETH", price := 100, change_24h_pct := 1/2 },
    spread_pct := 1/2 }

/-- Concrete fixture: an observation with spread exactly at the default entry
threshold. -/
def sigEntryW : SpreadSignal :=
  { btc := { symbol := "BTC", price := 100, change_24h_pct := 0 },
    eth := { symbol := "ETH", price := 100, change_24h_pct := 2 },
    spread_pct := 2 }

/-- Concrete fixture: flat trader state whose cooldown ledger records a
strategy1 fire at time 0. -/
def stLedgerW : TraderState :=
  { last_signal_time := fun d => if d = SignalType.strategy1 then some 0 else none,
    current_position := none, last_spread := none }

/-- C4 counterexample: with the entry threshold configured to 3, a spread of
2.5 lies strictly below the configured threshold, yet the constructor still
classifies the signal as strategy1 — the derivation compares against the
hard-coded literal 2.0, not the configured threshold. -/
theorem C4_counterexample :
    (SpreadSignal.post_init
      { btc := { symbol := "BTC", price := 100, change_24h_pct := 0 },
        eth := { symbol := "ETH", price := 100, change_24h_pct := 5/2 },
        spread_pct := 5/2, signal_type := none }).signal_type
        = some SignalType.strategy1
    ∧ (5 : ℚ)/2 < ({ spread_threshold := 3 } : StrategyConfig).spread_threshold := by
  constructor
  · norm_num [SpreadSignal.post_init]
  · norm_num

/-- C4 (amended): for every SpreadSignal constructed without an explicit
signal type, the derived classification depends only on the spread compared
against the fixed literal 2.0 — strategy1 at or above +2, strategy2 at or
below -2, no classification otherwise — independently of any configured
threshold value. -/
theorem C4_post_init_classification (_cfg : StrategyConfig) (b e : PriceData) (x : ℚ) :
    (SpreadSignal.post_init
        { btc := b, eth := e, spread_pct := x, signal_type := none }).signal_type
      = (if x ≥ 2 then some SignalType.strategy1
         else if x ≤ -2 then some SignalType.strategy2
         else none) := by
  by_cases h1 : x ≥ 2
  · simp [SpreadSignal.post_init, h1]
  · by_cases h2 : x ≤ -2
    · simp [SpreadSignal.post_init, h1, h2]
    · simp [SpreadSignal.post_init, h1, h2]

/-- C10: with both entry prices nonzero, Position.estimate_pnl never reaches
the division-by-zero failure and returns the sum of the two leg PnLs, each
leg being the percent change of the current against the entry price, sign
flipped for the short leg, scaled by the notional size. -/
theorem C10_estimate_pnl_total (p : Position) (current_btc current_eth : ℚ)
    (hb : p.entry_btc_price ≠ 0) (he : p.entry_eth_price ≠ 0) :
    p.estimate_pnl current_btc current_eth =
      some (if p.signal_type = SignalType.strategy1 then
              (current_btc - p.entry_btc_price) / p.entry_btc_price * p.position_size_usd
                + -((current_eth - p.entry_eth_price) / p.entry_eth_price)
                    * p.position_size_usd
            else
              -((current_btc - p.entry_btc_price) / p.entry_btc_price)
                  * p.position_size_usd
                + (current_eth - p.entry_eth_price) / p.entry_eth_price
                    * p.position_size_usd) := by
  unfold Position.estimate_pnl
  rw [if_neg (by push_neg; exact ⟨hb, he⟩)]
  split_ifs <;> rfl

/-- Closed instance of C10 obtained from the theorem at a concrete position
and concrete current prices. -/
theorem C10_witness :
    ((Position.mk SignalType.strategy1 (5/2) 100 200 0 1000).entry_btc_price ≠ 0)
    ∧ ((Position.mk SignalType.strategy1 (5/2) 100 200 0 1000).entry_eth_price ≠ 0)
    ∧ (Position.mk SignalType.strategy1 (5/2) 100 200 0 1000).estimate_pnl 110 190
        = some 150 := by
  refine ⟨by norm_num, by norm_num, ?_⟩
  rw [C10_estimate_pnl_total _ _ _ (by norm_num) (by norm_num)]
  rw [if_pos rfl]
  norm_num

/-- C5 counterexample: for a strategy1 position entered at prices 100/100
with size 1000, the path in which BTC rises to 110 has estimated PnL +100;
the mirrored path (the legs' percent changes swapped, so ETH rises to 110)
under the opposite-direction strategy2 position also has estimated PnL +100,
which is not the negated magnitude -100. -/
theorem C5_counterexample :
    (Position.mk SignalType.strategy1 (5/2) 100 100 0 1000).estimate_pnl 110 100
        = some 100
    ∧ (Position.mk SignalType.strategy2 (5/2) 100 100 0 1000).estimate_pnl
        (100 * 100 / 100) (100 * 110 / 100) = some 100
    ∧ ¬ ((100 : ℚ) = -|(100 : ℚ)|) := by
  refine ⟨by norm_num [Position.estimate_pnl], ?_, by norm_num⟩
  norm_num [Position.estimate_pnl]
  decide

/-- C5 (amended): the two strategy directions are exact mirror images — for
a strategy1 position, evaluating the opposite-direction strategy2 position
(same entry prices and size) on the mirrored price path, in which the two
legs' percent changes are swapped, yields the SAME estimated PnL, not its
negation; the negation arises when the direction flips on the unchanged
price path. -/
theorem C5_mirror_pnl (sp b0 e0 t sz b1 e1 : ℚ) (hb : b0 ≠ 0) (he : e0 ≠ 0) :
    (Position.mk SignalType.strategy2 sp b0 e0 t sz).estimate_pnl
        (b0 * e1 / e0) (e0 * b1 / b0)
      = (Position.mk SignalType.strategy1 sp b0 e0 t sz).estimate_pnl b1 e1
    ∧ (Position.mk SignalType.strategy2 sp b0 e0 t sz).estimate_pnl b1 e1
      = Option.map (fun q => -q)
          ((Position.mk SignalType.strategy1 sp b0 e0 t sz).estimate_pnl b1 e1) := by
  constructor
  · simp only [Position.estimate_pnl, hb, he, or_self, false_or, or_false, if_false,
      if_true, ite_false, ite_true, reduceCtorEq, Option.some.injEq]
    field_simp
    ring
  · simp only [Position.estimate_pnl, hb, he, or_self, false_or, or_false, if_false,
      if_true, ite_false, ite_true, reduceCtorEq, Option.map_some', Option.some.injEq]
    ring

/-- Closed instance of C5 (amended) obtained from the theorem at concrete
entry prices, size and price path. -/
theorem C5_mirror_witness :
    ((100 : ℚ) ≠ 0)
    ∧ (Position.mk SignalType.strategy2 (5/2) 100 100 0 1000).estimate_pnl
        (100 * 100 / 100) (100 * 110 / 100)
      = (Position.mk SignalType.strategy1 (5/2) 100 100 0 1000).estimate_pnl 110 100 :=
  ⟨by norm_num,
   (C5_mirror_pnl (5/2) 100 100 0 1000 110 100 (by norm_num) (by norm_num)).1⟩

/-- The carried reconnect delay stays between the base and the maximum on
every event trace, from any start inside that band. -/
theorem backoff_inband (evs : List StreamEvent) :
    ∀ d, reconnect_delay_base ≤ d → d ≤ max_reconnect_delay →
      reconnect_delay_base ≤ evs.foldl backoff_step d
        ∧ evs.foldl backoff_step d ≤ max_reconnect_delay := by
  induction evs with
  | nil => intro d h1 h2; exact ⟨h1, h2⟩
  | cons e rest ih =>
    intro d h1 h2
    rw [List.foldl_cons]
    cases e with
    | connected =>
      exact ih _ (le_refl _) (by norm_num [backoff_step, reconnect_delay_base, max_reconnect_delay])
    | retrySleep =>
      have hstep : backoff_step d StreamEvent.retrySleep = min (d * 2) max_reconnect_delay := rfl
      apply ih
      · rw [hstep]
        unfold reconnect_delay_base max_reconnect_delay at *
        omega
      · rw [hstep]
        unfold reconnect_delay_base max_reconnect_delay at *
        omega

/-- C8: the reconnect delay starts at the fixed base of 5 seconds, is
doubled and capped at the maximum of 60 on each retry wait, is reset to the
base on each successful connect, never leaves the band from base to maximum
on any trace of events, and the retry loop continues exactly while the
running flag holds. -/
theorem C8_backoff_machine (evs : List StreamEvent) :
    backoff_trace [] = reconnect_delay_base
    ∧ (∀ d, backoff_step d StreamEvent.retrySleep = min (d * 2) max_reconnect_delay)
    ∧ (∀ d, backoff_step d StreamEvent.connected = reconnect_delay_base)
    ∧ (∀ d, backoff_step d StreamEvent.retrySleep ≤ max_reconnect_delay)
    ∧ reconnect_delay_base ≤ backoff_trace evs
    ∧ backoff_trace evs ≤ max_reconnect_delay
    ∧ (∀ r, stream_loop_continues r = r) := by
  refine ⟨rfl, fun d => rfl, fun d => rfl, fun d => min_le_right _ _, ?_, ?_, fun r => rfl⟩
  · exact (backoff_inband evs reconnect_delay_base (le_refl _)
      (by norm_num [reconnect_delay_base, max_reconnect_delay])).1
  · exact (backoff_inband evs reconnect_delay_base (le_refl _)
      (by norm_num [reconnect_delay_base, max_reconnect_delay])).2

/-- C7: a fetch receiving a rate-limit response returns no observation (so
the callback is not invoked for it) and sets a cooldown of exactly 60
seconds; while the window has time remaining the poll loop sleeps and skips
the fetch, leaving its state unchanged; once the window has lapsed the same
iteration clears the rate-limited state and performs a normal fetch, ending
not rate-limited when that fetch is not itself rate-limited; and no
iteration ever changes the running flag, so rate limiting never terminates
the poll loop. -/
theorem C7_rate_limit_cooldown (st : CoinGeckoState) (u now1 now2 : ℚ)
    (resp : FetchResponse)
    (hrl : st.rate_limited = true) (hu : st.rate_limit_until = some u)
    (h1 : now1 < u) (h2 : u ≤ now2) (hok : resp ≠ FetchResponse.rateLimited) :
    (∀ s n, get_current_prices s n FetchResponse.rateLimited
        = ({ s with rate_limited := true, rate_limit_until := some (n + 60) }, none))
    ∧ poll_iteration st now1 resp = (st, PollStep.sleptCooldown)
    ∧ poll_iteration st now2 resp
        = poll_fetch { st with rate_limited := false, rate_limit_until := none } now2 resp
    ∧ ((poll_iteration st now2 resp).1).rate_limited = false
    ∧ (∃ em, (poll_iteration st now2 resp).2 = PollStep.fetched em)
    ∧ (∀ s n r, ((poll_iteration s n r).1).running = s.running) := by
  have hgt : u - now1 > 0 := by linarith
  have hngt : ¬ (u - now2 > 0) := by linarith
  have hiter1 : poll_iteration st now1 resp = (st, PollStep.sleptCooldown) := by
    unfold poll_iteration
    rw [hrl, hu]
    simp only [hgt, if_true, if_pos hgt]
  have hiter2 : poll_iteration st now2 resp
      = poll_fetch { st with rate_limited := false, rate_limit_until := none } now2 resp := by
    unfold poll_iteration
    rw [hrl, hu]
    simp only [if_neg hngt]
  refine ⟨fun s n => rfl, hiter1, hiter2, ?_, ?_, ?_⟩
  · rw [hiter2]
    cases resp with
    | rateLimited => exact absurd rfl hok
    | httpError => rfl
    | ok sig => rfl
    | okIncomplete => rfl
  · rw [hiter2]
    exact ⟨_, rfl⟩
  · intro s n r
    unfold poll_iteration poll_fetch get_current_prices
    cases hsr : s.rate_limited <;> cases hsu : s.rate_limit_until <;> cases r <;>
      simp only [] <;> first
        | rfl
        | (split_ifs <;> rfl)

/-- Closed instance of C7 obtained from the theorem at a concrete
rate-limited state, a time inside the window and a time past it. -/
theorem C7_witness :
    (CoinGeckoState.mk true (some 100) true).rate_limited = true
    ∧ poll_iteration (CoinGeckoState.mk true (some 100) true) 50 FetchResponse.okIncomplete
        = (CoinGeckoState.mk true (some 100) true, PollStep.sleptCooldown) :=
  ⟨rfl,
   (C7_rate_limit_cooldown (CoinGeckoState.mk true (some 100) true) 100 50 100
      FetchResponse.okIncomplete rfl rfl (by norm_num) (by norm_num)
      (fun h => FetchResponse.noConfusion h)).2.1⟩

/-- When the spec entry precondition fails, check_entry_signal changes nothing
and sends nothing. -/
theorem check_entry_no_fire (cfg : StrategyConfig) (st : TraderState) (sig : SpreadSignal)
    (now : ℚ) (hnot : ¬ entryFires cfg st sig now) :
    check_entry_signal cfg st sig now = (st, []) := by
  by_cases h1 : |sig.spread_pct| < cfg.spread_threshold
  · simp only [check_entry_signal, if_pos h1]
  · by_cases h2 : |sig.spread_pct| > cfg.spread_max
    · simp only [check_entry_signal, if_neg h1, if_pos h2]
    · have hge : cfg.spread_threshold ≤ |sig.spread_pct| := not_lt.mp h1
      have hle : |sig.spread_pct| ≤ cfg.spread_max := not_lt.mp h2
      have hcd : ¬ cooldownElapsed st
          (impliedDirection cfg.spread_threshold sig.spread_pct) now cfg.cooldown_sec :=
        fun hc => hnot ⟨hge, hle, hc⟩
      by_cases hs : cfg.spread_threshold ≤ sig.spread_pct
      · have himp : impliedDirection cfg.spread_threshold sig.spread_pct
            = SignalType.strategy1 := if_pos hs
        rw [himp] at hcd
        unfold cooldownElapsed at hcd
        cases hlast : st.last_signal_time SignalType.strategy1 with
        | none => rw [hlast] at hcd; exact absurd trivial hcd
        | some t =>
          rw [hlast] at hcd
          have hlt : now - t < cfg.cooldown_sec := by
            by_contra hge2
            exact hcd (le_of_not_lt hge2)
          simp only [check_entry_signal, if_neg h1, if_neg h2, ge_iff_le, if_pos hs,
            hlast, hlt, decide_eq_true_eq, if_true]
      · have hs2 : sig.spread_pct ≤ -cfg.spread_threshold := by
          rcases abs_cases sig.spread_pct with ⟨habs, hsign⟩ | ⟨habs, hsign⟩
          · exfalso; exact hs (by linarith [hge, habs])
          · linarith [hge, habs]
        have himp : impliedDirection cfg.spread_threshold sig.spread_pct
            = SignalType.strategy2 := if_neg hs
        rw [himp] at hcd
        unfold cooldownElapsed at hcd
        have hns : ¬ (sig.spread_pct ≥ cfg.spread_threshold) := hs
        cases hlast : st.last_signal_time SignalType.strategy2 with
        | none => rw [hlast] at hcd; exact absurd trivial hcd
        | some t =>
          rw [hlast] at hcd
          have hlt : now - t < cfg.cooldown_sec := by
            by_contra hge2
            exact hcd (le_of_not_lt hge2)
          simp only [check_entry_signal, if_neg h1, if_neg h2, ge_iff_le, if_neg hns,
            if_pos hs2, hlast, hlt, decide_eq_true_eq, if_true]

/-- When the spec entry precondition holds, check_entry_signal creates the
position, records the cooldown for the fired direction and sends exactly one
entry alert carrying the implied direction. -/
theorem check_entry_fire (cfg : StrategyConfig) (st : TraderState) (sig : SpreadSignal)
    (now : ℚ) (hf : entryFires cfg st sig now) :
    check_entry_signal cfg st sig now =
      ({ st with
          current_position :=
            some (entryPosition cfg sig now (impliedDirection cfg.spread_threshold sig.spread_pct)),
          last_signal_time := fun d =>
            if d = impliedDirection cfg.spread_threshold sig.spread_pct then some now
            else st.last_signal_time d },
       [Alert.signal (withSignalType sig (impliedDirection cfg.spread_threshold sig.spread_pct))]) := by
  obtain ⟨hge, hle, hcd⟩ := hf
  have h1 : ¬ (|sig.spread_pct| < cfg.spread_threshold) := not_lt.mpr hge
  have h2 : ¬ (|sig.spread_pct| > cfg.spread_max) := not_lt.mpr hle
  by_cases hs : cfg.spread_threshold ≤ sig.spread_pct
  · have himp : impliedDirection cfg.spread_threshold sig.spread_pct
        = SignalType.strategy1 := if_pos hs
    rw [himp] at hcd ⊢
    unfold cooldownElapsed at hcd
    cases hlast : st.last_signal_time SignalType.strategy1 with
    | none =>
      simp only [check_entry_signal, entryPosition, withSignalType, if_neg h1, if_neg h2, ge_iff_le,
        if_pos hs, hlast, Bool.false_eq_true, if_false]
    | some t =>
      rw [hlast] at hcd
      have hnlt : ¬ (now - t < cfg.cooldown_sec) := not_lt.mpr hcd
      simp only [check_entry_signal, entryPosition, withSignalType, if_neg h1, if_neg h2, ge_iff_le,
        if_pos hs, hlast, hnlt, decide_eq_true_eq, if_false]
  · have hs2 : sig.spread_pct ≤ -cfg.spread_threshold := by
      rcases abs_cases sig.spread_pct with ⟨habs, hsign⟩ | ⟨habs, hsign⟩
      · exfalso; exact hs (by linarith [hge, habs])
      · linarith [hge, habs]
    have himp : impliedDirection cfg.spread_threshold sig.spread_pct
        = SignalType.strategy2 := if_neg hs
    rw [himp] at hcd ⊢
    unfold cooldownElapsed at hcd
    have hns : ¬ (sig.spread_pct ≥ cfg.spread_threshold) := hs
    cases hlast : st.last_signal_time SignalType.strategy2 with
    | none =>
      simp only [check_entry_signal, entryPosition, withSignalType, if_neg h1, if_neg h2, ge_iff_le,
        if_neg hns, if_pos hs2, hlast, Bool.false_eq_true, if_false]
    | some t =>
      rw [hlast] at hcd
      have hnlt : ¬ (now - t < cfg.cooldown_sec) := not_lt.mpr hcd
      simp only [check_entry_signal, entryPosition, withSignalType, if_neg h1, if_neg h2, ge_iff_le,
        if_neg hns, if_pos hs2, hlast, hnlt, decide_eq_true_eq, if_false]

/-- C1: for an observation processed while the tracker is FLAT, a position is
created and an entry alert is sent if and only if the spread magnitude is at
least the entry threshold, at most the max-spread ceiling, and the cooldown
for the implied direction has elapsed or never fired; both comparisons are
non-strict, so a spread exactly at the threshold or exactly at the ceiling is
acted upon. -/
theorem C1_entry_iff (cfg : StrategyConfig) (st : TraderState) (sig : SpreadSignal)
    (now : ℚ) (hflat : st.current_position = none) :
    ∃ st1 evs, on_price_update cfg st sig now = some (st1, evs)
      ∧ (entryFires cfg st sig now ↔ st1.current_position.isSome = true)
      ∧ (entryFires cfg st sig now ↔ evs ≠ [])
      ∧ (entryFires cfg st sig now →
          evs = [Alert.signal (withSignalType sig
            (impliedDirection cfg.spread_threshold sig.spread_pct))]) := by
  have hrw : on_price_update cfg st sig now
      = some (check_entry_signal cfg { st with last_spread := some sig.spread_pct } sig now) := by
    simp only [on_price_update, hflat]
  by_cases hf : entryFires cfg st sig now
  · have hf1 : entryFires cfg { st with last_spread := some sig.spread_pct } sig now := hf
    rw [hrw, check_entry_fire cfg _ sig now hf1]
    refine ⟨_, _, rfl, ?_, ?_, ?_⟩
    · simp [hf]
    · simp [hf]
    · intro _; rfl
  · have hf1 : ¬ entryFires cfg { st with last_spread := some sig.spread_pct } sig now := hf
    rw [hrw, check_entry_no_fire cfg _ sig now hf1]
    refine ⟨_, _, rfl, ?_, ?_, ?_⟩
    · simp [hf, hflat]
    · simp [hf]
    · intro hc; exact absurd hc hf
  
/-- Closed instance of C1 at the default configuration, a fresh state and a
spread exactly at the entry threshold. -/
theorem C1_witness :
    TraderState.init.current_position = none
    ∧ ∃ st1 evs,
        on_price_update {} TraderState.init
          { btc := { symbol := "BTC", price := 100, change_24h_pct := 0 },
            eth := { symbol := "ETH", price := 100, change_24h_pct := 2 },
            spread_pct := 2 } 0 = some (st1, evs)
        ∧ (entryFires {} TraderState.init
            { btc := { symbol := "BTC", price := 100, change_24h_pct := 0 },
              eth := { symbol := "ETH", price := 100, change_24h_pct := 2 },
              spread_pct := 2 } 0 ↔ st1.current_position.isSome = true)
        ∧ (entryFires {} TraderState.init
            { btc := { symbol := "BTC", price := 100, change_24h_pct := 0 },
              eth := { symbol := "ETH", price := 100, change_24h_pct := 2 },
              spread_pct := 2 } 0 ↔ evs ≠ [])
        ∧ (entryFires {} TraderState.init
            { btc := { symbol := "BTC", price := 100, change_24h_pct := 0 },
              eth := { symbol := "ETH", price := 100, change_24h_pct := 2 },
              spread_pct := 2 } 0 →
            evs = [Alert.signal (withSignalType
              { btc := { symbol := "BTC", price := 100, change_24h_pct := 0 },
                eth := { symbol := "ETH", price := 100, change_24h_pct := 2 },
                spread_pct := 2 }
              (impliedDirection ({} : StrategyConfig).spread_threshold 2))]) :=
  ⟨rfl, C1_entry_iff {} TraderState.init
    { btc := { symbol := "BTC", price := 100, change_24h_pct := 0 },
      eth := { symbol := "ETH", price := 100, change_24h_pct := 2 },
      spread_pct := 2 } 0 rfl⟩

/-- C3: for an observation processed while a position is OPEN, the position is
closed (close alert sent, position cleared) if and only if the spread
magnitude is at most the close threshold and the estimated PnL at the
observation prices is at least the take-profit amount; otherwise the position
field is left unchanged and no alert is sent. -/
theorem C3_close_iff (cfg : StrategyConfig) (st : TraderState) (p : Position)
    (sig : SpreadSignal) (now : ℚ) (hopen : st.current_position = some p)
    (hb : p.entry_btc_price ≠ 0) (he : p.entry_eth_price ≠ 0) :
    ∃ pnl st1 evs,
      p.estimate_pnl sig.btc.price sig.eth.price = some pnl
      ∧ on_price_update cfg st sig now = some (st1, evs)
      ∧ ((|sig.spread_pct| ≤ cfg.spread_close_threshold ∧ pnl ≥ cfg.take_profit_usd) →
          st1.current_position = none
            ∧ evs = [Alert.close (withSignalType sig SignalType.close) p pnl])
      ∧ (¬ (|sig.spread_pct| ≤ cfg.spread_close_threshold ∧ pnl ≥ cfg.take_profit_usd) →
          st1.current_position = some p ∧ evs = []) := by
  obtain ⟨pnl, hpnl⟩ : ∃ q, p.estimate_pnl sig.btc.price sig.eth.price = some q := by
    unfold Position.estimate_pnl
    rw [if_neg (by push_neg; exact ⟨hb, he⟩)]
    split_ifs <;> exact ⟨_, rfl⟩
  refine ⟨pnl, ?_⟩
  have hrw : on_price_update cfg st sig now
      = check_close_signal cfg { st with last_spread := some sig.spread_pct } sig := by
    simp only [on_price_update, hopen]
  rw [hrw]
  unfold check_close_signal
  simp only [hopen, hpnl]
  by_cases hc : |sig.spread_pct| ≤ cfg.spread_close_threshold ∧ pnl ≥ cfg.take_profit_usd
  · rw [if_pos hc]
    exact ⟨_, _, trivial, rfl, fun _ => ⟨rfl, rfl⟩, fun hn => absurd hc hn⟩
  · rw [if_neg hc]
    exact ⟨_, _, trivial, rfl, fun hcc => absurd hcc hc, fun _ => ⟨rfl, rfl⟩⟩

/-- Closed instance of C3 at the default configuration and a concrete open
position. -/
theorem C3_witness :
    stOpenW.current_position = some posW
    ∧ ∃ pnl st1 evs,
        posW.estimate_pnl sigCloseW.btc.price sigCloseW.eth.price = some pnl
        ∧ on_price_update {} stOpenW sigCloseW 7 = some (st1, evs)
        ∧ ((|sigCloseW.spread_pct| ≤ ({} : StrategyConfig).spread_close_threshold
              ∧ pnl ≥ ({} : StrategyConfig).take_profit_usd) →
            st1.current_position = none
              ∧ evs = [Alert.close (withSignalType sigCloseW SignalType.close) posW pnl])
        ∧ (¬ (|sigCloseW.spread_pct| ≤ ({} : StrategyConfig).spread_close_threshold
              ∧ pnl ≥ ({} : StrategyConfig).take_profit_usd) →
            st1.current_position = some posW ∧ evs = []) :=
  ⟨rfl, C3_close_iff {} stOpenW posW sigCloseW 7 rfl (by norm_num [posW]) (by norm_num [posW])⟩

/-- While the cooldown window of the implied direction is still open,
check_entry_signal changes nothing and sends nothing. -/
theorem check_entry_suppressed (cfg : StrategyConfig) (st : TraderState)
    (sig : SpreadSignal) (now t0 : ℚ)
    (hled : st.last_signal_time (impliedDirection cfg.spread_threshold sig.spread_pct)
        = some t0)
    (hwin : now - t0 < cfg.cooldown_sec) :
    check_entry_signal cfg st sig now = (st, []) := by
  by_cases h1 : |sig.spread_pct| < cfg.spread_threshold
  · simp only [check_entry_signal, if_pos h1]
  · by_cases h2 : |sig.spread_pct| > cfg.spread_max
    · simp only [check_entry_signal, if_neg h1, if_pos h2]
    · by_cases hs : cfg.spread_threshold ≤ sig.spread_pct
      · rw [show impliedDirection cfg.spread_threshold sig.spread_pct
            = SignalType.strategy1 from if_pos hs] at hled
        simp only [check_entry_signal, if_neg h1, if_neg h2, ge_iff_le, if_pos hs,
          hled, hwin, decide_eq_true_eq, if_true]
      · by_cases hs2 : sig.spread_pct ≤ -cfg.spread_threshold
        · rw [show impliedDirection cfg.spread_threshold sig.spread_pct
              = SignalType.strategy2 from if_neg hs] at hled
          have hns : ¬ (sig.spread_pct ≥ cfg.spread_threshold) := hs
          simp only [check_entry_signal, if_neg h1, if_neg h2, ge_iff_le, if_neg hns,
            if_pos hs2, hled, hwin, decide_eq_true_eq, if_true]
        · have hns : ¬ (sig.spread_pct ≥ cfg.spread_threshold) := hs
          simp only [check_entry_signal, if_neg h1, if_neg h2, ge_iff_le, if_neg hns,
            if_neg hs2]

/-- C9: the close transition mutates only the current-position field — the
cooldown ledger and the last seen spread are unchanged, and the position is
either kept or cleared; consequently, after a close, an entry-qualifying
spread whose implied direction is still inside the cooldown window measured
from the ledger timestamp produces no entry and no alert. -/
theorem C9_close_frame (cfg : StrategyConfig) (st st1 : TraderState) (sig : SpreadSignal)
    (evs : List Alert)
    (hrun : check_close_signal cfg st sig = some (st1, evs)) :
    st1.last_signal_time = st.last_signal_time
    ∧ st1.last_spread = st.last_spread
    ∧ (st1.current_position = st.current_position ∨ st1.current_position = none)
    ∧ (∀ sig2 t0 t1,
        st1.current_position = none →
        st1.last_signal_time (impliedDirection cfg.spread_threshold sig2.spread_pct)
            = some t0 →
        t1 - t0 < cfg.cooldown_sec →
        on_price_update cfg st1 sig2 t1
          = some ({ st1 with last_spread := some sig2.spread_pct }, [])) := by
  have hsupp : ∀ sig2 t0 t1,
      st1.current_position = none →
      st1.last_signal_time (impliedDirection cfg.spread_threshold sig2.spread_pct)
          = some t0 →
      t1 - t0 < cfg.cooldown_sec →
      on_price_update cfg st1 sig2 t1
        = some ({ st1 with last_spread := some sig2.spread_pct }, []) := by
    intro sig2 t0 t1 hflat hled hwin
    have hrw : on_price_update cfg st1 sig2 t1
        = some (check_entry_signal cfg { st1 with last_spread := some sig2.spread_pct } sig2 t1) := by
      simp only [on_price_update, hflat]
    rw [hrw, check_entry_suppressed cfg { st1 with last_spread := some sig2.spread_pct }
      sig2 t1 t0 hled hwin]
  unfold check_close_signal at hrun
  cases hcp : st.current_position with
  | none =>
    simp only [hcp, Option.some.injEq, Prod.mk.injEq] at hrun
    obtain ⟨hst, hevs⟩ := hrun
    refine ⟨?_, ?_, ?_, hsupp⟩
    · rw [← hst]
    · rw [← hst]
    · right
      rw [← hst]
      try exact hcp
  | some p =>
    simp only [hcp] at hrun
    cases hpn : p.estimate_pnl sig.btc.price sig.eth.price with
    | none =>
      simp only [hpn] at hrun
      exact absurd hrun (by simp)
    | some pnl =>
      simp only [hpn] at hrun
      split_ifs at hrun with hc
      · simp only [Option.some.injEq, Prod.mk.injEq] at hrun
        obtain ⟨hst, hevs⟩ := hrun
        refine ⟨?_, ?_, ?_, hsupp⟩
        · rw [← hst]
        · rw [← hst]
        · right
          rw [← hst]
      · simp only [Option.some.injEq, Prod.mk.injEq] at hrun
        obtain ⟨hst, hevs⟩ := hrun
        refine ⟨?_, ?_, ?_, hsupp⟩
        · rw [← hst]
        · rw [← hst]
        · left
          rw [← hst]
          try exact hcp

/-- Closed instance of C9 at a concrete close transition. -/
theorem C9_witness :
    ({ stOpenW with current_position := none } : TraderState).last_signal_time
      = stOpenW.last_signal_time := by
  have hrun : check_close_signal {} stOpenW sigCloseW
      = some ({ stOpenW with current_position := none },
              [Alert.close (withSignalType sigCloseW SignalType.close) posW 100]) := by
    have habs : |(1:ℚ)/2| = 1/2 := by
      rw [abs_of_pos]
      norm_num
    norm_num [check_close_signal, stOpenW, posW, sigCloseW, Position.estimate_pnl,
      withSignalType, habs]
  exact (C9_close_frame {} stOpenW _ sigCloseW _ hrun).1

/-- A price update processed while a position is open never emits an entry
alert, never creates a new position, and never touches the cooldown ledger. -/
theorem on_price_update_open (cfg : StrategyConfig) (st : TraderState) (p : Position)
    (sig : SpreadSignal) (now : ℚ) (st1 : TraderState) (evs : List Alert)
    (hopen : st.current_position = some p)
    (h : on_price_update cfg st sig now = some (st1, evs)) :
    (∀ a ∈ evs, a.isEntry = false)
    ∧ (st1.current_position = some p ∨ st1.current_position = none)
    ∧ st1.last_signal_time = st.last_signal_time := by
  simp only [on_price_update, hopen] at h
  unfold check_close_signal at h
  simp only [hopen] at h
  cases hpn : p.estimate_pnl sig.btc.price sig.eth.price with
  | none =>
    simp only [hpn] at h
    exact absurd h (by simp)
  | some pnl =>
    simp only [hpn] at h
    split_ifs at h with hc
    · simp only [Option.some.injEq, Prod.mk.injEq] at h
      obtain ⟨hst, hevs⟩ := h
      refine ⟨?_, ?_, ?_⟩
      · intro a ha
        rw [← hevs] at ha
        simp only [List.mem_singleton] at ha
        rw [ha]
        rfl
      · right
        rw [← hst]
      · rw [← hst]
    · simp only [Option.some.injEq, Prod.mk.injEq] at h
      obtain ⟨hst, hevs⟩ := h
      refine ⟨?_, ?_, ?_⟩
      · intro a ha
        rw [← hevs] at ha
        simp at ha
      · left
        rw [← hst]
        try exact hopen
      · rw [← hst]

/-- A price update processed while a position is open whose spread has not
normalized leaves the position and the ledger unchanged and sends nothing. -/
theorem on_price_update_open_noclose (cfg : StrategyConfig) (st : TraderState)
    (p : Position) (sig : SpreadSignal) (now : ℚ) (st1 : TraderState) (evs : List Alert)
    (hopen : st.current_position = some p)
    (hnc : ¬ (|sig.spread_pct| ≤ cfg.spread_close_threshold))
    (h : on_price_update cfg st sig now = some (st1, evs)) :
    st1.current_position = some p ∧ st1.last_signal_time = st.last_signal_time
      ∧ evs = [] := by
  simp only [on_price_update, hopen] at h
  unfold check_close_signal at h
  simp only [hopen] at h
  cases hpn : p.estimate_pnl sig.btc.price sig.eth.price with
  | none =>
    simp only [hpn] at h
    exact absurd h (by simp)
  | some pnl =>
    simp only [hpn] at h
    rw [if_neg (fun hc => hnc hc.1)] at h
    simp only [Option.some.injEq, Prod.mk.injEq] at h
    obtain ⟨hst, hevs⟩ := h
    refine ⟨?_, ?_, hevs.symm⟩
    · rw [← hst]
      try exact hopen
    · rw [← hst]

/-- C2: while a position is OPEN, entry logic is never evaluated: any single
processed observation emits no entry alert and either keeps the one live
position or clears it; and a whole sequence of entry-qualifying observations
(spread magnitude at least the entry threshold, which exceeds the close
threshold) produces zero entries and leaves the same single position open. -/
theorem C2_at_most_one_position (cfg : StrategyConfig) (st : TraderState) (p : Position)
    (sigs : List (SpreadSignal × ℚ)) (st2 : TraderState) (evs2 : List Alert)
    (hopen : st.current_position = some p)
    (hth : cfg.spread_close_threshold < cfg.spread_threshold)
    (hq : ∀ x ∈ sigs, cfg.spread_threshold ≤ |x.1.spread_pct|)
    (hrun : process_all cfg st sigs = some (st2, evs2)) :
    (∀ sig now st1 evs, on_price_update cfg st sig now = some (st1, evs) →
        (∀ a ∈ evs, a.isEntry = false)
        ∧ (st1.current_position = some p ∨ st1.current_position = none))
    ∧ (∀ a ∈ evs2, a.isEntry = false) ∧ st2.current_position = some p := by
  refine ⟨?_, ?_⟩
  · intro sig now st1 evs h
    obtain ⟨h1, h2, _⟩ := on_price_update_open cfg st p sig now st1 evs hopen h
    exact ⟨h1, h2⟩
  · induction sigs generalizing st st2 evs2 with
    | nil =>
      simp only [process_all, Option.some.injEq, Prod.mk.injEq] at hrun
      obtain ⟨hst, hevs⟩ := hrun
      constructor
      · intro a ha
        rw [← hevs] at ha
        simp at ha
      · rw [← hst]
        try exact hopen
    | cons x rest ih =>
      obtain ⟨sig, now⟩ := x
      simp only [process_all] at hrun
      cases ho : on_price_update cfg st sig now with
      | none =>
        simp only [ho] at hrun
        exact absurd hrun (by simp)
      | some r =>
        obtain ⟨st1, evs1⟩ := r
        simp only [ho] at hrun
        cases hrest : process_all cfg st1 rest with
        | none =>
          simp only [hrest] at hrun
          exact absurd hrun (by simp)
        | some r2 =>
          obtain ⟨st2x, evs2x⟩ := r2
          simp only [hrest, Option.some.injEq, Prod.mk.injEq] at hrun
          obtain ⟨hst, hevs⟩ := hrun
          have hnc : ¬ (|sig.spread_pct| ≤ cfg.spread_close_threshold) := by
            have := hq (sig, now) (List.mem_cons_self _ _)
            intro hcon
            exact absurd (lt_of_lt_of_le hth (le_trans this hcon)) (lt_irrefl _)
          obtain ⟨hp1, _, hevs1⟩ :=
            on_price_update_open_noclose cfg st p sig now st1 evs1 hopen hnc ho
          obtain ⟨hef2, hp2⟩ := ih st1 st2x evs2x hp1
            (fun y hy => hq y (List.mem_cons_of_mem _ hy)) hrest
          constructor
          · intro a ha
            rw [← hevs] at ha
            rcases List.mem_append.mp ha with hm | hm
            · rw [hevs1] at hm
              simp at hm
            · exact hef2 a hm
          · rw [← hst]
            exact hp2

/-- Closed instance of C2: one entry-qualifying observation fed to an open
state produces no alerts and keeps the position. -/
theorem C2_witness :
    stOpenW.current_position = some posW
    ∧ ({ stOpenW with last_spread := some 2 } : TraderState).current_position
        = some posW := by
  have habs : |(2:ℚ)| = 2 := by
    rw [abs_of_pos]
    norm_num
  have hrun : process_all {} stOpenW [(sigEntryW, 10)]
      = some ({ stOpenW with last_spread := some 2 }, []) := by
    norm_num [process_all, on_price_update, check_close_signal, stOpenW, posW,
      sigEntryW, Position.estimate_pnl, habs]
  refine ⟨rfl, ?_⟩
  exact (C2_at_most_one_position {} stOpenW posW [(sigEntryW, 10)]
    ({ stOpenW with last_spread := some 2 }) [] rfl (by norm_num)
    (by
      intro x hx
      simp only [List.mem_singleton] at hx
      rw [hx]
      norm_num [sigEntryW, habs]) hrun).2.2

/-- Inside the cooldown window of direction d, check_entry_signal preserves
the ledger entry of d and emits no entry alert for d, whatever else it does. -/
theorem check_entry_window_frame (cfg : StrategyConfig) (st : TraderState)
    (sig : SpreadSignal) (now t0 : ℚ) (d : SignalType)
    (hled : st.last_signal_time d = some t0)
    (hwin : now - t0 < cfg.cooldown_sec) :
    (check_entry_signal cfg st sig now).1.last_signal_time d = some t0
    ∧ ∀ a ∈ (check_entry_signal cfg st sig now).2, a.isEntryFor d = false := by
  by_cases hf : entryFires cfg st sig now
  · rw [check_entry_fire cfg st sig now hf]
    by_cases hdd : d = impliedDirection cfg.spread_threshold sig.spread_pct
    · exfalso
      have hce := hf.2.2
      rw [← hdd] at hce
      unfold cooldownElapsed at hce
      simp only [hled] at hce
      exact absurd hce (not_le.mpr hwin)
    · constructor
      · show (if d = impliedDirection cfg.spread_threshold sig.spread_pct
            then some now else st.last_signal_time d) = some t0
        rw [if_neg hdd]
        exact hled
      · intro a ha
        simp only [List.mem_singleton] at ha
        rw [ha]
        have hdd2 : impliedDirection cfg.spread_threshold sig.spread_pct ≠ d :=
          fun hcon => hdd hcon.symm
        simp [Alert.isEntryFor, withSignalType, hdd2]
  · rw [check_entry_no_fire cfg st sig now hf]
    refine ⟨hled, ?_⟩
    intro a ha
    simp at ha

/-- One processed observation inside the cooldown window of direction d
preserves the ledger entry of d and emits no entry alert for d. -/
theorem on_price_update_window (cfg : StrategyConfig) (st : TraderState)
    (sig : SpreadSignal) (now : ℚ) (d : SignalType) (t0 : ℚ)
    (st1 : TraderState) (evs : List Alert)
    (hled : st.last_signal_time d = some t0)
    (hwin : now - t0 < cfg.cooldown_sec)
    (h : on_price_update cfg st sig now = some (st1, evs)) :
    st1.last_signal_time d = some t0 ∧ ∀ a ∈ evs, a.isEntryFor d = false := by
  cases hcp : st.current_position with
  | some p =>
    obtain ⟨hne, _, hledg⟩ := on_price_update_open cfg st p sig now st1 evs hcp h
    refine ⟨by rw [hledg]; exact hled, ?_⟩
    intro a ha
    have hae := hne a ha
    cases a with
    | signal s => simp [Alert.isEntry] at hae
    | close s pos pnl => rfl
  | none =>
    simp only [on_price_update, hcp, Option.some.injEq] at h
    obtain ⟨hw1, hw2⟩ := check_entry_window_frame cfg
      { st with last_spread := some sig.spread_pct } sig now t0 d hled hwin
    simp only [hcp] at hw1 hw2
    rw [h] at hw1 hw2
    exact ⟨hw1, hw2⟩

/-- C6: after an entry fired for direction d at time t0, processing any
sequence of observations all timestamped inside the cooldown window produces
no further entry alert for d, and the ledger entry for d is still t0 at the
end. -/
theorem C6_cooldown_suppression (cfg : StrategyConfig) (sigs : List (SpreadSignal × ℚ))
    (st : TraderState) (d : SignalType) (t0 : ℚ) (st2 : TraderState) (evs2 : List Alert)
    (hled : st.last_signal_time d = some t0)
    (hwin : ∀ x ∈ sigs, x.2 - t0 < cfg.cooldown_sec)
    (hrun : process_all cfg st sigs = some (st2, evs2)) :
    (∀ a ∈ evs2, a.isEntryFor d = false) ∧ st2.last_signal_time d = some t0 := by
  induction sigs generalizing st st2 evs2 with
  | nil =>
    simp only [process_all, Option.some.injEq, Prod.mk.injEq] at hrun
    obtain ⟨hst, hevs⟩ := hrun
    constructor
    · intro a ha
      rw [← hevs] at ha
      simp at ha
    · rw [← hst]
      try exact hled
  | cons x rest ih =>
    obtain ⟨sig, now⟩ := x
    simp only [process_all] at hrun
    cases ho : on_price_update cfg st sig now with
    | none =>
      simp only [ho] at hrun
      exact absurd hrun (by simp)
    | some r =>
      obtain ⟨st1, evs1⟩ := r
      simp only [ho] at hrun
      cases hrest : process_all cfg st1 rest with
      | none =>
        simp only [hrest] at hrun
        exact absurd hrun (by simp)
      | some r2 =>
        obtain ⟨st2x, evs2x⟩ := r2
        simp only [hrest, Option.some.injEq, Prod.mk.injEq] at hrun
        obtain ⟨hst, hevs⟩ := hrun
        obtain ⟨hl1, hef1⟩ := on_price_update_window cfg st sig now d t0 st1 evs1 hled
          (hwin (sig, now) (List.mem_cons_self _ _)) ho
        obtain ⟨hef2, hl2⟩ := ih st1 st2x evs2x hl1
          (fun y hy => hwin y (List.mem_cons_of_mem _ hy)) hrest
        constructor
        · intro a ha
          rw [← hevs] at ha
          rcases List.mem_append.mp ha with hm | hm
          · exact hef1 a hm
          · exact hef2 a hm
        · rw [← hst]
          exact hl2

/-- Closed instance of C6: re-feeding an extreme spread 10 seconds after a
strategy1 fire produces no alert. -/
theorem C6_witness :
    stLedgerW.last_signal_time SignalType.strategy1 = some 0
    ∧ (∀ a ∈ ([] : List Alert), a.isEntryFor SignalType.strategy1 = false)
    ∧ ({ stLedgerW with last_spread := some 2 } : TraderState).last_signal_time
        SignalType.strategy1 = some 0 := by
  have habs : |(2:ℚ)| = 2 := by
    rw [abs_of_pos]
    norm_num
  have hrun : process_all {} stLedgerW [(sigEntryW, 10)]
      = some ({ stLedgerW with last_spread := some 2 }, []) := by
    norm_num [process_all, on_price_update, check_entry_signal, stLedgerW,
      sigEntryW, habs]
  have h := C6_cooldown_suppression {} [(sigEntryW, 10)] stLedgerW
    SignalType.strategy1 0 ({ stLedgerW with last_spread := some 2 }) [] rfl
    (by
      intro x hx
      simp only [List.mem_singleton] at hx
      rw [hx]
      norm_num) hrun
  exact ⟨rfl, h.1, h.2⟩

end MonkMode
